import Mathlib

/-!
# vidtranscoder: the Pub/Sub worker of `src/main.go`

A shallow embedding of `main.go`: the `StorageEvent` payload type, the receive
callback passed to `sub.Receive`, `handleVideoFile`, and the start-up sequence of
`main`.  Effects (log lines, `Ack`, `Nack`, `time.Sleep`, ...) are recorded as a
trace, in program order.

`json.Unmarshal` is a call into the Go standard library.  It is embedded for the one
target type the program uses (`*StorageEvent`): a scanner for the JSON grammar, the
string unquoting rules, and the rules that store an object's members into the
struct's three string fields.  The payload is read as its sequence of code points
(Go decodes UTF-8 inside string literals, each invalid byte giving U+FFFD; outside
string literals every non-ASCII byte is a scan error either way).
-/

namespace VidTranscoder

/-! ## JSON text: tokens -/

/-- JSON values, as read from a payload. -/
inductive JSON where
  | null
  | bool (b : Bool)
  | num (lit : String)
  | str (s : String)
  | arr (elems : List JSON)
  | obj (members : List (String × JSON))

/-- Tokens of the JSON grammar. -/
inductive Token where
  | beginObject
  | endObject
  | beginArray
  | endArray
  | colon
  | comma
  | str (s : String)
  | num (lit : String)
  | litTrue
  | litFalse
  | litNull
  deriving DecidableEq

/-- Go `isSpace`: space, tab, carriage return, line feed. -/
def isSpace (c : Char) : Bool :=
  c.toNat == 0x20 || c.toNat == 0x09 || c.toNat == 0x0D || c.toNat == 0x0A

/-- Decimal digit `0`..`9`. -/
def isDigit (c : Char) : Bool :=
  decide (0x30 ≤ c.toNat) && decide (c.toNat ≤ 0x39)

/-- Value of a hexadecimal digit (either case), as in Go `getu4`. -/
def hexVal (c : Char) : Option Nat :=
  let n := c.toNat
  if 0x30 ≤ n ∧ n ≤ 0x39 then some (n - 0x30)
  else if 0x61 ≤ n ∧ n ≤ 0x66 then some (n - 0x61 + 10)
  else if 0x41 ≤ n ∧ n ≤ 0x46 then some (n - 0x41 + 10)
  else none

/-- Go `getu4` on the four characters after a backslash-u. -/
def getu4 (a b c d : Char) : Option Nat :=
  match hexVal a, hexVal b, hexVal c, hexVal d with
  | some x, some y, some z, some w => some (((x * 16 + y) * 16 + z) * 16 + w)
  | _, _, _, _ => none

/-- The Unicode replacement character U+FFFD. -/
def replacementChar : Char := Char.ofNat 0xFFFD

/-- Go `utf16.IsSurrogate`. -/
def isSurrogate (r : Nat) : Bool :=
  decide (0xD800 ≤ r) && decide (r < 0xE000)

/-- Go `utf16.DecodeRune`: a high and a low surrogate give one code point, anything
else gives U+FFFD. -/
def decodeSurrogates (r1 r2 : Nat) : Char :=
  if 0xD800 ≤ r1 ∧ r1 < 0xDC00 ∧ 0xDC00 ≤ r2 ∧ r2 < 0xE000 then
    Char.ofNat ((r1 - 0xD800) * 1024 + (r2 - 0xDC00) + 0x10000)
  else replacementChar

/-- The character a one-letter escape stands for, as in Go `unquote`. -/
def escapeChar (e : Char) : Option Char :=
  let n := e.toNat
  if n = 0x22 ∨ n = 0x5C ∨ n = 0x2F ∨ n = 0x27 then some e
  else if n = 0x62 then some (Char.ofNat 0x08)
  else if n = 0x66 then some (Char.ofNat 0x0C)
  else if n = 0x6E then some (Char.ofNat 0x0A)
  else if n = 0x72 then some (Char.ofNat 0x0D)
  else if n = 0x74 then some (Char.ofNat 0x09)
  else none

/-- What an element of a string literal denotes before surrogate pairs are joined:
a character, or the 16-bit value of a backslash-u escape. -/
inductive CodeUnit where
  | chr (c : Char)
  | esc (r : Nat)
  deriving DecidableEq

/-- First half of Go `unquote`, on the text between the quotes of a string literal:
resolve the escapes, reject a quote, a control character or a bad escape. -/
def unescape : List Char → Option (List CodeUnit)
  | [] => some []
  | c :: rest =>
    if c.toNat = 0x5C then
      match rest with
      | [] => none
      | e :: rest1 =>
        if e.toNat = 0x75 then
          match rest1 with
          | a :: b :: c2 :: d :: rest2 =>
            match getu4 a b c2 d with
            | none => none
            | some rr => (unescape rest2).map (fun t => CodeUnit.esc rr :: t)
          | _ => none
        else
          match escapeChar e with
          | none => none
          | some x => (unescape rest1).map (fun t => CodeUnit.chr x :: t)
    else if c.toNat = 0x22 ∨ c.toNat < 0x20 then none
    else (unescape rest).map (fun t => CodeUnit.chr c :: t)

/-- Second half of Go `unquote`: an escape that is a surrogate is joined with an
escape right after it when the two form a pair (`utf16.DecodeRune`), and is
replaced by U+FFFD otherwise. -/
def joinSurrogates : List CodeUnit → List Char
  | [] => []
  | CodeUnit.chr c :: rest => c :: joinSurrogates rest
  | CodeUnit.esc rr :: rest =>
    let tail := joinSurrogates rest
    if isSurrogate rr then
      match rest with
      | CodeUnit.esc rr1 :: rest2 =>
        if decodeSurrogates rr rr1 = replacementChar then replacementChar :: tail
        else decodeSurrogates rr rr1 :: joinSurrogates rest2
      | _ => replacementChar :: tail
    else Char.ofNat rr :: tail

/-- Go `unquote`. -/
def unquote (raw : List Char) : Option String :=
  (unescape raw).map (fun units => String.mk (joinSurrogates units))

/-- States of the scanner inside and between tokens (Go `scanner.go`: `stateInString`,
`stateInStringEsc`, `stateInStringEscU`.., `stateNeg`, `state0`, `state1`, `stateDot`,
`stateDot0`, `stateE`, `stateESign`, `stateE0`, and `stateT`.. `stateNul`).  The
accumulators hold the characters read so far, last one first. -/
inductive LexState where
  | beginToken
  | inString (raw : List Char)
  | inStringEsc (raw : List Char)
  | inStringEscU (raw : List Char) (seen : Nat)
  | neg (lit : List Char)
  | zero (lit : List Char)
  | int (lit : List Char)
  | dot (lit : List Char)
  | frac (lit : List Char)
  | exp (lit : List Char)
  | expSign (lit : List Char)
  | expDigits (lit : List Char)
  | literal (tok : Token) (expect : List Char)

/-- The scanner at the start of a token: skip white space, emit a one-character
token, or enter a string, a number or a literal name. -/
def lexBegin (c : Char) : Option (LexState × List Token) :=
  let n := c.toNat
  if isSpace c then some (LexState.beginToken, [])
  else if n = 0x7B then some (LexState.beginToken, [Token.beginObject])
  else if n = 0x7D then some (LexState.beginToken, [Token.endObject])
  else if n = 0x5B then some (LexState.beginToken, [Token.beginArray])
  else if n = 0x5D then some (LexState.beginToken, [Token.endArray])
  else if n = 0x3A then some (LexState.beginToken, [Token.colon])
  else if n = 0x2C then some (LexState.beginToken, [Token.comma])
  else if n = 0x22 then some (LexState.inString [], [])
  else if n = 0x2D then some (LexState.neg [c], [])
  else if n = 0x30 then some (LexState.zero [c], [])
  else if 0x31 ≤ n ∧ n ≤ 0x39 then some (LexState.int [c], [])
  else if n = 0x74 then some (LexState.literal Token.litTrue "rue".toList, [])
  else if n = 0x66 then some (LexState.literal Token.litFalse "alse".toList, [])
  else if n = 0x6E then some (LexState.literal Token.litNull "ull".toList, [])
  else none

/-- A number ends at `c`: emit it, and scan `c` as the start of the next token. -/
def lexEndNumber (lit : List Char) (c : Char) : Option (LexState × List Token) :=
  (lexBegin c).map (fun r => (r.1, Token.num (String.mk lit.reverse) :: r.2))

/-- One step of the scanner. -/
def lexStep (st : LexState) (c : Char) : Option (LexState × List Token) :=
  let n := c.toNat
  match st with
  | LexState.beginToken => lexBegin c
  | LexState.inString raw =>
    if n = 0x22 then (unquote raw.reverse).map (fun s => (LexState.beginToken, [Token.str s]))
    else if n = 0x5C then some (LexState.inStringEsc (c :: raw), [])
    else if n < 0x20 then none
    else some (LexState.inString (c :: raw), [])
  | LexState.inStringEsc raw =>
    if n = 0x62 ∨ n = 0x66 ∨ n = 0x6E ∨ n = 0x72 ∨ n = 0x74 ∨ n = 0x5C ∨ n = 0x2F ∨ n = 0x22 then
      some (LexState.inString (c :: raw), [])
    else if n = 0x75 then some (LexState.inStringEscU (c :: raw) 0, [])
    else none
  | LexState.inStringEscU raw seen =>
    if (hexVal c).isSome then
      if seen = 3 then some (LexState.inString (c :: raw), [])
      else some (LexState.inStringEscU (c :: raw) (seen + 1), [])
    else none
  | LexState.neg lit =>
    if n = 0x30 then some (LexState.zero (c :: lit), [])
    else if 0x31 ≤ n ∧ n ≤ 0x39 then some (LexState.int (c :: lit), [])
    else none
  | LexState.zero lit =>
    if n = 0x2E then some (LexState.dot (c :: lit), [])
    else if n = 0x65 ∨ n = 0x45 then some (LexState.exp (c :: lit), [])
    else lexEndNumber lit c
  | LexState.int lit =>
    if isDigit c then some (LexState.int (c :: lit), [])
    else if n = 0x2E then some (LexState.dot (c :: lit), [])
    else if n = 0x65 ∨ n = 0x45 then some (LexState.exp (c :: lit), [])
    else lexEndNumber lit c
  | LexState.dot lit =>
    if isDigit c then some (LexState.frac (c :: lit), []) else none
  | LexState.frac lit =>
    if isDigit c then some (LexState.frac (c :: lit), [])
    else if n = 0x65 ∨ n = 0x45 then some (LexState.exp (c :: lit), [])
    else lexEndNumber lit c
  | LexState.exp lit =>
    if n = 0x2B ∨ n = 0x2D then some (LexState.expSign (c :: lit), [])
    else if isDigit c then some (LexState.expDigits (c :: lit), [])
    else none
  | LexState.expSign lit =>
    if isDigit c then some (LexState.expDigits (c :: lit), []) else none
  | LexState.expDigits lit =>
    if isDigit c then some (LexState.expDigits (c :: lit), [])
    else lexEndNumber lit c
  | LexState.literal tok expect =>
    match expect with
    | [] => none
    | [e] => if c = e then some (LexState.beginToken, [tok]) else none
    | e :: more => if c = e then some (LexState.literal tok more, []) else none

/-- The scanner at the end of the input: only a complete number may still be open. -/
def lexEnd : LexState → Option (List Token)
  | LexState.beginToken => some []
  | LexState.zero lit => some [Token.num (String.mk lit.reverse)]
  | LexState.int lit => some [Token.num (String.mk lit.reverse)]
  | LexState.frac lit => some [Token.num (String.mk lit.reverse)]
  | LexState.expDigits lit => some [Token.num (String.mk lit.reverse)]
  | _ => none

/-- Run the scanner over the input. -/
def lexAll : LexState → List Char → Option (List Token)
  | st, [] => lexEnd st
  | st, c :: cs =>
    match lexStep st c with
    | none => none
    | some (st2, toks) => (lexAll st2 cs).map (fun more => toks ++ more)

/-! ## JSON text: values -/

/-- A container being read (Go `parseState` entries `parseArrayValue`,
`parseObjectKey`/`parseObjectValue`), with what it holds so far, last one first;
an object also holds the key whose value is being read. -/
inductive Frame where
  | arr (elems : List JSON)
  | obj (members : List (String × JSON)) (key : String)

/-- What the scanner expects next (Go `stateBeginValue`, `stateBeginValueOrEmpty`,
`stateBeginStringOrEmpty`, `stateBeginString`, `stateEndValue` after an object key,
`stateEndValue` after a value, `stateEndTop`). -/
inductive Mode where
  | beginValue
  | beginValueOrEmpty
  | beginStringOrEmpty
  | beginString
  | endKey
  | endValue
  | endTop (v : JSON)

/-- Go `maxNestingDepth`. -/
def maxNestingDepth : Nat := 10000

/-- A value is complete: it is the top-level value, or it goes into the container
being read. -/
def deliver (v : JSON) : List Frame → Mode × List Frame
  | [] => (Mode.endTop v, [])
  | Frame.arr elems :: fs => (Mode.endValue, Frame.arr (v :: elems) :: fs)
  | Frame.obj ms k :: fs => (Mode.endValue, Frame.obj ((k, v) :: ms) k :: fs)

/-- The value of a token that is a value by itself. -/
def scalarOf : Token → Option JSON
  | Token.str s => some (JSON.str s)
  | Token.num lit => some (JSON.num lit)
  | Token.litTrue => some (JSON.bool true)
  | Token.litFalse => some (JSON.bool false)
  | Token.litNull => some JSON.null
  | _ => none

/-- Start of a value: a container is opened (Go `pushParseState`, which fails beyond
`maxNestingDepth`), or a scalar is delivered. -/
def parseBeginValue (tok : Token) (stack : List Frame) : Option (Mode × List Frame) :=
  match tok with
  | Token.beginObject =>
    if stack.length + 1 ≤ maxNestingDepth then
      some (Mode.beginStringOrEmpty, Frame.obj [] "" :: stack)
    else none
  | Token.beginArray =>
    if stack.length + 1 ≤ maxNestingDepth then
      some (Mode.beginValueOrEmpty, Frame.arr [] :: stack)
    else none
  | _ => (scalarOf tok).map (fun v => deliver v stack)

/-- One step of the grammar, on a token. -/
def parseStep (mode : Mode) (stack : List Frame) (tok : Token) : Option (Mode × List Frame) :=
  match mode with
  | Mode.beginValue => parseBeginValue tok stack
  | Mode.beginValueOrEmpty =>
    match tok, stack with
    | Token.endArray, Frame.arr elems :: fs => some (deliver (JSON.arr elems.reverse) fs)
    | Token.endArray, _ => none
    | _, _ => parseBeginValue tok stack
  | Mode.beginStringOrEmpty =>
    match tok, stack with
    | Token.endObject, Frame.obj ms _ :: fs => some (deliver (JSON.obj ms.reverse) fs)
    | Token.str k, Frame.obj ms _ :: fs => some (Mode.endKey, Frame.obj ms k :: fs)
    | _, _ => none
  | Mode.beginString =>
    match tok, stack with
    | Token.str k, Frame.obj ms _ :: fs => some (Mode.endKey, Frame.obj ms k :: fs)
    | _, _ => none
  | Mode.endKey =>
    match tok with
    | Token.colon => some (Mode.beginValue, stack)
    | _ => none
  | Mode.endValue =>
    match tok, stack with
    | Token.comma, Frame.arr elems :: fs => some (Mode.beginValue, Frame.arr elems :: fs)
    | Token.endArray, Frame.arr elems :: fs => some (deliver (JSON.arr elems.reverse) fs)
    | Token.comma, Frame.obj ms k :: fs => some (Mode.beginString, Frame.obj ms k :: fs)
    | Token.endObject, Frame.obj ms _ :: fs => some (deliver (JSON.obj ms.reverse) fs)
    | _, _ => none
  | Mode.endTop _ => none

/-- Run the grammar over the tokens; the input must end right after the top-level
value. -/
def parseTokens : Mode → List Frame → List Token → Option JSON
  | Mode.endTop v, _, [] => some v
  | _, _, [] => none
  | mode, stack, tok :: toks =>
    match parseStep mode stack tok with
    | none => none
    | some (mode2, stack2) => parseTokens mode2 stack2 toks

/-- The JSON value a text denotes, or `none` when the text is not valid JSON (Go
`checkValid` fails with a `SyntaxError`). -/
def parseJSON (text : List Char) : Option JSON :=
  match lexAll LexState.beginToken text with
  | none => none
  | some toks => parseTokens Mode.beginValue [] toks

/-! ## `json.Unmarshal` into a `StorageEvent` -/

/-- The payload type: `type StorageEvent struct`, three string fields tagged
`json:"bucket"`, `json:"name"`, `json:"size"`. -/
structure StorageEvent where
  Bucket : String
  Name : String
  Size : String
  deriving DecidableEq

/-- The value of `var event StorageEvent`: every field the empty string. -/
def StorageEvent.zero : StorageEvent := ⟨"", "", ""⟩

/-- The fields of `StorageEvent`. -/
inductive Field where
  | bucket
  | name
  | size
  deriving DecidableEq

/-- The JSON name given by the field's tag. -/
def Field.jsonName : Field → String
  | Field.bucket => "bucket"
  | Field.name => "name"
  | Field.size => "size"

/-- Read a field. -/
def Field.get : Field → StorageEvent → String
  | Field.bucket, ev => ev.Bucket
  | Field.name, ev => ev.Name
  | Field.size, ev => ev.Size

/-- Assign a field (`v.SetString`). -/
def Field.set : Field → String → StorageEvent → StorageEvent
  | Field.bucket, s, ev => { ev with Bucket := s }
  | Field.name, s, ev => { ev with Name := s }
  | Field.size, s, ev => { ev with Size := s }

/-- Case folding of one character of an object key, as far as it can matter against
the three ASCII names: `a`..`z` go to upper case, and the two other characters that
Unicode simple folding puts with an ASCII letter, the Kelvin sign U+212A and the
long s U+017F, go to `K` and `S`.  No other character folds to an ASCII one. -/
def foldRune (c : Char) : Char :=
  let n := c.toNat
  if 0x61 ≤ n ∧ n ≤ 0x7A then Char.ofNat (n - 0x20)
  else if n = 0x212A then Char.ofNat 0x4B
  else if n = 0x17F then Char.ofNat 0x53
  else c

/-- Go `foldName`. -/
def foldName (s : String) : List Char := s.toList.map foldRune

/-- The field an object key selects: the field whose name is the key exactly, and
failing that the field whose name equals the key up to case folding; `none` for a
key that names no field (its value is skipped). -/
def fieldFor (key : String) : Option Field :=
  if key = Field.bucket.jsonName then some Field.bucket
  else if key = Field.name.jsonName then some Field.name
  else if key = Field.size.jsonName then some Field.size
  else if foldName key = foldName Field.bucket.jsonName then some Field.bucket
  else if foldName key = foldName Field.name.jsonName then some Field.name
  else if foldName key = foldName Field.size.jsonName then some Field.size
  else none

/-- The errors of `json.Unmarshal`: a `*json.SyntaxError` (or the empty input), or a
`*json.UnmarshalTypeError` with its `Value` (the kind of JSON value met) and `Field`
(empty at the top level). -/
inductive UnmarshalError where
  | malformed
  | typeMismatch (value : String) (field : String)
  deriving DecidableEq

/-- The `Value` text of an `UnmarshalTypeError` for a JSON value. -/
def kindName : JSON → String
  | JSON.null => "null"
  | JSON.bool _ => "bool"
  | JSON.num _ => "number"
  | JSON.str _ => "string"
  | JSON.arr _ => "array"
  | JSON.obj _ => "object"

/-- Go `saveError`: only the first error is kept. -/
def saveError (saved : Option UnmarshalError) (err : UnmarshalError) : Option UnmarshalError :=
  match saved with
  | some e => some e
  | none => some err

/-- Store one member of the payload object: a key that names no field is skipped; a
string is assigned to the field; `null` leaves the field as it is; any other value
records a type error and decoding goes on. -/
def storeMember (acc : StorageEvent × Option UnmarshalError) (m : String × JSON) :
    StorageEvent × Option UnmarshalError :=
  match fieldFor m.1 with
  | none => acc
  | some f =>
    match m.2 with
    | JSON.str s => (f.set s acc.1, acc.2)
    | JSON.null => acc
    | v => (acc.1, saveError acc.2 (UnmarshalError.typeMismatch (kindName v) f.jsonName))

/-- Decode a JSON value into a zero `StorageEvent`: an object is stored member by
member, in order; `null` leaves the struct as it is; any other value is a type
error. -/
def unmarshalValue (v : JSON) : Except UnmarshalError StorageEvent :=
  match v with
  | JSON.obj ms =>
    match ms.foldl storeMember (StorageEvent.zero, none) with
    | (ev, none) => Except.ok ev
    | (_, some e) => Except.error e
  | JSON.null => Except.ok StorageEvent.zero
  | w => Except.error (UnmarshalError.typeMismatch (kindName w) "")

/-- The call `json.Unmarshal(msg.Data, &event)` with `var event StorageEvent`. -/
def jsonUnmarshal (data : String) : Except UnmarshalError StorageEvent :=
  match parseJSON data.toList with
  | none => Except.error UnmarshalError.malformed
  | some v => unmarshalValue v

/-! ## The program -/

/-- A `pubsub.Message`, as far as it is used here: its payload `Data`, and its
`DeliveryAttempt` (`nil` unless the subscription has a dead-letter policy), which
the program never reads. -/
structure Message where
  Data : String
  DeliveryAttempt : Option Nat
  deriving DecidableEq

/-- The effects of the program, one constructor per effectful statement of
`main.go`.  `ack` and `nack` act on the message the callback was called with. -/
inductive Effect where
  /-- The call `log.Printf("Raw message data: %s", msg.Data)` -/
  | logRawData (data : String)
  /-- The call `log.Printf("Failed to unmarshal message: %v", err)` -/
  | logUnmarshalFailed (err : UnmarshalError)
  /-- The call `log.Printf("Received event: Bucket=%s File=%s Size=%s", ...)` -/
  | logReceivedEvent (bucket name size : String)
  /-- The call `log.Printf("Error processing video file: %v", err)` -/
  | logProcessingError (err : String)
  /-- The call `fmt.Printf("Processing video file: gs://%s/%s\n", bucketName, fileName)`,
  the first statement of `handleVideoFile` -/
  | printProcessing (bucketName fileName : String)
  /-- The call `msg.Ack()` -/
  | ack
  /-- The call `msg.Nack()` -/
  | nack
  /-- The call `time.Sleep(time.Second * seconds)` -/
  | sleep (seconds : Nat)
  /-- The call `os.Setenv(key, value)` -/
  | setenv (key value : String)
  /-- The call `pubsub.NewClient(ctx, projectID)` -/
  | newClient (projectID : String)
  /-- The call `client.Subscription(subscriptionID)` -/
  | subscription (subscriptionID : String)
  /-- The call of the callback by `sub.Receive`, on a message -/
  | receive (msg : Message)
  /-- The deferred `client.Close()` -/
  | closeClient
  deriving DecidableEq

/-- The function `handleVideoFile(bucketName, fileName string) error`: its effects and
the error it returns (`none` for `nil`). -/
def handleVideoFile (bucketName fileName : String) : List Effect × Option String :=
  ([Effect.printProcessing bucketName fileName],
    if fileName = "error" then some "simulated processing error" else none)

/-- The callback passed to `sub.Receive`: the effects of one call, in order. -/
def callback (msg : Message) : List Effect :=
  Effect.logRawData msg.Data ::
    match jsonUnmarshal msg.Data with
    | Except.error err => [Effect.logUnmarshalFailed err, Effect.nack]
    | Except.ok event =>
      Effect.logReceivedEvent event.Bucket event.Name event.Size ::
        match handleVideoFile event.Bucket event.Name with
        | (out, some err) => out ++ [Effect.logProcessingError err, Effect.nack]
        | (out, none) => out ++ [Effect.ack, Effect.sleep 10]

/-- What `main` meets when it runs: the result of `godotenv.Load()`, the values
`os.Getenv` returns for the three variables, the error of `pubsub.NewClient`, the
messages `sub.Receive` hands to the callback, and the error `sub.Receive` returns
(`none` for `nil`). -/
structure World where
  dotenvErr : Option String
  projectID : String
  subscriptionID : String
  credentialsFile : String
  newClientErr : Option String
  deliveries : List Message
  receiveErr : Option String

/-- The four `log.Fatalf` calls of `main`. -/
inductive Fatal where
  /-- Fatal line "Error loading .env file: %v" -/
  | dotenv (err : String)
  /-- Fatal line "Missing required environment variables. ..." -/
  | missingEnv
  /-- Fatal line "Failed to create Pub/Sub client: %v" -/
  | newClient (err : String)
  /-- Fatal line "Failed to receive messages: %v" -/
  | receive (err : String)
  deriving DecidableEq

/-- How `main` ends: `log.Fatalf` (which exits the process, so the deferred
`client.Close()` does not run), or a normal return. -/
inductive Exit where
  | fatal (f : Fatal)
  | returned
  deriving DecidableEq

/-- The effects of `sub.Receive`: each delivered message is handed to the callback.
The callbacks of different messages are listed one after the other. -/
def receiveAll : List Message → List Effect
  | [] => []
  | msg :: rest => Effect.receive msg :: (callback msg ++ receiveAll rest)

/-- The function `main`: its effects, and how it ends. -/
def main (w : World) : List Effect × Exit :=
  match w.dotenvErr with
  | some err => ([], Exit.fatal (Fatal.dotenv err))
  | none =>
    if w.projectID = "" ∨ w.subscriptionID = "" ∨ w.credentialsFile = "" then
      ([], Exit.fatal Fatal.missingEnv)
    else
      let setup := [Effect.setenv "GOOGLE_APPLICATION_CREDENTIALS" w.credentialsFile,
        Effect.newClient w.projectID]
      match w.newClientErr with
      | some err => (setup, Exit.fatal (Fatal.newClient err))
      | none =>
        let run := setup ++ [Effect.subscription w.subscriptionID, Effect.sleep 10] ++
          receiveAll w.deliveries
        match w.receiveErr with
        | some err => (run, Exit.fatal (Fatal.receive err))
        | none => (run ++ [Effect.closeClient], Exit.returned)

/-! ## Observations on a trace -/

/-- Number of `msg.Ack()` calls. -/
def acks (t : List Effect) : Nat := t.count Effect.ack

/-- Number of `msg.Nack()` calls. -/
def nacks (t : List Effect) : Nat := t.count Effect.nack

/-- The calls of `handleVideoFile`, with their arguments: each call starts with its
`fmt.Printf`, and nothing else prints that line. -/
def handlerCalls : List Effect → List (String × String)
  | [] => []
  | Effect.printProcessing b n :: rest => (b, n) :: handlerCalls rest
  | _ :: rest => handlerCalls rest

/-- The `time.Sleep` calls, with their lengths in seconds. -/
def sleeps : List Effect → List Nat
  | [] => []
  | Effect.sleep d :: rest => d :: sleeps rest
  | _ :: rest => sleeps rest

/-! ## Payloads and predicates used in the statements -/

/-- A JSON value that a string field accepts: a string, or `null`. -/
def JSON.isStringOrNull : JSON → Bool
  | JSON.str _ => true
  | JSON.null => true
  | _ => false

/-! ### JSON text of an object of string members -/

/-- Lower-case hexadecimal digit of a number below 16. -/
def hexDigit (k : Nat) : Char :=
  if k < 10 then Char.ofNat (0x30 + k) else Char.ofNat (0x61 + (k - 10))

/-- JSON text of one character of a string: a quote or a backslash is preceded by a
backslash, a control character is written as a backslash-u escape, any other
character stands for itself. -/
def escapeRune (c : Char) : List Char :=
  if c.toNat = 0x22 ∨ c.toNat = 0x5C then [Char.ofNat 0x5C, c]
  else if c.toNat < 0x20 then
    [Char.ofNat 0x5C, Char.ofNat 0x75, Char.ofNat 0x30, Char.ofNat 0x30,
      hexDigit (c.toNat / 16), hexDigit (c.toNat % 16)]
  else [c]

/-- JSON text of the characters of a string. -/
def escapeText : List Char → List Char
  | [] => []
  | c :: cs => escapeRune c ++ escapeText cs

/-- JSON text of a string: its escaped characters between two quotes. -/
def quoteString (s : String) : List Char :=
  Char.ofNat 0x22 :: (escapeText s.toList ++ [Char.ofNat 0x22])

/-- JSON text of a member with a string value: key, colon, value. -/
def renderMember (m : String × String) : List Char :=
  quoteString m.1 ++ Char.ofNat 0x3A :: quoteString m.2

/-- JSON text of the members after the first, each preceded by a comma, and of the
closing brace. -/
def renderTail : List (String × String) → List Char
  | [] => [Char.ofNat 0x7D]
  | m :: rest => Char.ofNat 0x2C :: (renderMember m ++ renderTail rest)

/-- JSON text of an object whose members all have string values, without white
space (as `json.Marshal` lays an object out). -/
def renderObject : List (String × String) → String
  | [] => String.mk [Char.ofNat 0x7B, Char.ofNat 0x7D]
  | m :: rest => String.mk (Char.ofNat 0x7B :: (renderMember m ++ renderTail rest))

/-- The code unit `unescape` reads back from the text of a character. -/
def unitOf (c : Char) : CodeUnit :=
  if c.toNat < 0x20 then CodeUnit.esc c.toNat else CodeUnit.chr c

/-- The tokens of the members after the first and of the closing brace. -/
def tailTokens : List (String × String) → List Token
  | [] => [Token.endObject]
  | m :: rest => Token.comma :: Token.str m.1 :: Token.colon :: Token.str m.2 :: tailTokens rest

/-- The members of a rendered object, as JSON values. -/
def stringMembers (ms : List (String × String)) : List (String × JSON) :=
  ms.map (fun m => (m.1, JSON.str m.2))

/-- The object with string members `ms` has the field `f` = `v`: some member names the
field (its key selects `f`, exactly or up to letter case), and every member that
names it carries the string `v`. -/
def HasStringField (ms : List (String × String)) (f : Field) (v : String) : Prop :=
  (∃ m ∈ ms, fieldFor m.1 = some f) ∧ ∀ m ∈ ms, fieldFor m.1 = some f → m.2 = v

/-- The payload `{"bucket":"b1","name":"clip.mp4","size":"120"}`. -/
def clipPayload : String := "\x7b\"bucket\":\"b1\",\"name\":\"clip.mp4\",\"size\":\"120\"\x7d"

/-- The payload `{"bucket":"b1","name":"error","size":"5"}`. -/
def errorPayload : String := "\x7b\"bucket\":\"b1\",\"name\":\"error\",\"size\":\"5\"\x7d"

/-- The payload `{"bucket":"uploads","name":"movie.mov","size":"7"}`. -/
def moviePayload : String := "\x7b\"bucket\":\"uploads\",\"name\":\"movie.mov\",\"size\":\"7\"\x7d"

/-- The payload `{"size":"5"}`, with no bucket and no name. -/
def sizeOnlyPayload : String := "\x7b\"size\":\"5\"\x7d"

/-- The payload `{"bucket":5,"name":"clip.mp4"}`, whose bucket is a number. -/
def numberBucketPayload : String := "\x7b\"bucket\":5,\"name\":\"clip.mp4\"\x7d"

/-- The payload `{"bucket":null,"name":"clip.mp4"}`, whose bucket is null. -/
def nullBucketPayload : String := "\x7b\"bucket\":null,\"name\":\"clip.mp4\"\x7d"

/-- The payload `{"bucket":"b1","name":"clip.mp4","size":"120","NAME":"error"}`: the
three fields as strings, and one more member whose key is `NAME`. -/
def overridePayload : String :=
  "\x7b\"bucket\":\"b1\",\"name\":\"clip.mp4\",\"size\":\"120\",\"NAME\":\"error\"\x7d"

/-! ## Lemmas on decoding and on the callback -/

/-- Reading a field just assigned gives the assigned string. -/
theorem get_set_same (f : Field) (s : String) (ev : StorageEvent) : f.get (f.set s ev) = s := by
  cases f <;> rfl

/-- Assigning one field leaves the other fields as they are. -/
theorem get_set_other (f g : Field) (s : String) (ev : StorageEvent) (h : f ≠ g) :
    f.get (g.set s ev) = f.get ev := by
  cases f <;> cases g <;> first | rfl | exact absurd rfl h

/-- What `storeMember` does to the saved error: it is kept once set. -/
theorem storeMember_error_kept (acc : StorageEvent × Option UnmarshalError) (m : String × JSON)
    (e : UnmarshalError) (h : acc.2 = some e) : (storeMember acc m).2 = some e := by
  unfold storeMember
  cases hf : fieldFor m.1 with
  | none => simpa using h
  | some f =>
    cases hv : m.2 <;> simp [saveError, h]

/-- Over a whole member list, a saved error is kept. -/
theorem foldl_error_kept (ms : List (String × JSON)) :
    ∀ (acc : StorageEvent × Option UnmarshalError) (e : UnmarshalError), acc.2 = some e →
      (ms.foldl storeMember acc).2 = some e := by
  induction ms with
  | nil => intro acc e h; simpa using h
  | cons m rest ih =>
    intro acc e h
    simp only [List.foldl_cons]
    exact ih _ e (storeMember_error_kept acc m e h)

/-- A member that names a field and is neither a string nor null leaves an error
saved. -/
theorem storeMember_bad (acc : StorageEvent × Option UnmarshalError) (m : String × JSON)
    (f : Field) (hf : fieldFor m.1 = some f) (hv : m.2.isStringOrNull = false) :
    ∃ e, (storeMember acc m).2 = some e := by
  unfold storeMember
  rw [hf]
  cases hm : m.2 <;> simp [hm, JSON.isStringOrNull] at hv ⊢ <;>
    (cases acc.2 <;> simp [saveError])

/-- A member list with such a member ends with an error saved. -/
theorem foldl_bad (ms : List (String × JSON)) :
    ∀ (acc : StorageEvent × Option UnmarshalError),
      (∃ m ∈ ms, ∃ f, fieldFor m.1 = some f ∧ m.2.isStringOrNull = false) →
      ∃ e, (ms.foldl storeMember acc).2 = some e := by
  induction ms with
  | nil => intro acc h; simp at h
  | cons m rest ih =>
    intro acc h
    simp only [List.foldl_cons]
    obtain ⟨x, hx, f, hf, hv⟩ := h
    rcases List.mem_cons.mp hx with rfl | hrest
    · obtain ⟨e, he⟩ := storeMember_bad acc x f hf hv
      exact ⟨e, foldl_error_kept rest _ e he⟩
    · exact ih _ ⟨x, hrest, f, hf, hv⟩

/-- A member that is a string or null wherever it names a field does not touch the
saved error. -/
theorem storeMember_good (acc : StorageEvent × Option UnmarshalError) (m : String × JSON)
    (h : ∀ f, fieldFor m.1 = some f → m.2.isStringOrNull = true) :
    (storeMember acc m).2 = acc.2 := by
  unfold storeMember
  cases hf : fieldFor m.1 with
  | none => rfl
  | some f =>
    have hv := h f hf
    cases hm : m.2 <;> simp [hm, JSON.isStringOrNull] at hv ⊢

/-- A member list of such members does not touch the saved error. -/
theorem foldl_good (ms : List (String × JSON)) :
    ∀ (acc : StorageEvent × Option UnmarshalError),
      (∀ m ∈ ms, ∀ f, fieldFor m.1 = some f → m.2.isStringOrNull = true) →
      (ms.foldl storeMember acc).2 = acc.2 := by
  induction ms with
  | nil => intro acc _; rfl
  | cons m rest ih =>
    intro acc h
    simp only [List.foldl_cons]
    rw [ih _ (fun x hx => h x (List.mem_cons_of_mem _ hx))]
    exact storeMember_good acc m (h m (List.mem_cons_self _ _))

/-- A member that does not carry a string for `f` leaves field `f` as it is. -/
theorem storeMember_get_null (acc : StorageEvent × Option UnmarshalError) (m : String × JSON)
    (f : Field) (h : fieldFor m.1 = some f → m.2 = JSON.null) :
    f.get (storeMember acc m).1 = f.get acc.1 := by
  unfold storeMember
  cases hg : fieldFor m.1 with
  | none => rfl
  | some g =>
    by_cases hfg : f = g
    · subst hfg
      simp [h hg]
    · cases hm : m.2 <;> simp [get_set_other f g _ _ hfg]

/-- A field that is absent or null throughout the member list keeps its value. -/
theorem foldl_get_null (ms : List (String × JSON)) (f : Field) :
    ∀ (acc : StorageEvent × Option UnmarshalError),
      (∀ m ∈ ms, fieldFor m.1 = some f → m.2 = JSON.null) →
      f.get (ms.foldl storeMember acc).1 = f.get acc.1 := by
  induction ms with
  | nil => intro acc _; rfl
  | cons m rest ih =>
    intro acc h
    simp only [List.foldl_cons]
    rw [ih _ (fun x hx => h x (List.mem_cons_of_mem _ hx))]
    exact storeMember_get_null acc m f (h m (List.mem_cons_self _ _))

/-- A member either names `f`, and then `f` holds the string it carries, or it leaves
`f` as it is. -/
theorem storeMember_get_str (acc : StorageEvent × Option UnmarshalError) (m : String × JSON)
    (f : Field) (v : String) (h : fieldFor m.1 = some f → m.2 = JSON.str v) :
    (fieldFor m.1 = some f ∧ f.get (storeMember acc m).1 = v) ∨
    (fieldFor m.1 ≠ some f ∧ f.get (storeMember acc m).1 = f.get acc.1) := by
  unfold storeMember
  cases hg : fieldFor m.1 with
  | none => right; simp
  | some g =>
    by_cases hfg : f = g
    · subst hfg
      left
      simp [h hg, get_set_same]
    · right
      refine ⟨fun hh => hfg (Option.some.inj hh).symm, ?_⟩
      cases hm : m.2 <;> simp [get_set_other f g _ _ hfg]

/-- When every member naming `f` carries `v`, field `f` ends as `v`, or no member
names it and it keeps its value. -/
theorem foldl_get_str (ms : List (String × JSON)) (f : Field) (v : String) :
    ∀ (acc : StorageEvent × Option UnmarshalError),
      (∀ m ∈ ms, fieldFor m.1 = some f → m.2 = JSON.str v) →
      f.get (ms.foldl storeMember acc).1 = v ∨
      (f.get (ms.foldl storeMember acc).1 = f.get acc.1 ∧ ∀ m ∈ ms, fieldFor m.1 ≠ some f) := by
  induction ms with
  | nil => intro acc _; right; simp
  | cons m rest ih =>
    intro acc h
    simp only [List.foldl_cons]
    rcases ih (storeMember acc m) (fun x hx => h x (List.mem_cons_of_mem _ hx)) with hv | ⟨hkeep, hno⟩
    · exact Or.inl hv
    · rcases storeMember_get_str acc m f v (h m (List.mem_cons_self _ _)) with ⟨_, hset⟩ | ⟨hne, hsame⟩
      · left; rw [hkeep, hset]
      · right
        refine ⟨by rw [hkeep, hsame], ?_⟩
        intro x hx
        rcases List.mem_cons.mp hx with rfl | hrest
        · exact hne
        · exact hno x hrest

/-- A string-valued field `f` = `v` of the object ends up in field `f`. -/
theorem foldl_hasStringField (ms : List (String × String)) (f : Field) (v : String)
    (acc : StorageEvent × Option UnmarshalError) (h : HasStringField ms f v) :
    f.get ((stringMembers ms).foldl storeMember acc).1 = v := by
  obtain ⟨⟨m, hm, hf⟩, hall⟩ := h
  have hall2 : ∀ x ∈ stringMembers ms, fieldFor x.1 = some f → x.2 = JSON.str v := by
    intro x hx hxf
    obtain ⟨y, hy, rfl⟩ := List.mem_map.mp hx
    rw [hall y hy hxf]
  rcases foldl_get_str (stringMembers ms) f v acc hall2 with hv | ⟨_, hno⟩
  · exact hv
  · exact absurd hf (hno (m.1, JSON.str m.2) (List.mem_map.mpr ⟨m, hm, rfl⟩))

/-! ### The scanner reads rendered text back -/

theorem hexVal_hexDigit (k : Nat) (hk : k < 16) : hexVal (hexDigit k) = some k := by
  interval_cases k <;> rfl

/-- Step of `unescape` on a character that stands for itself. -/
theorem unescape_plain (c : Char) (rest : List Char) (h5c : ¬ c.toNat = 0x5C)
    (h22 : ¬ c.toNat = 0x22) (hctl : ¬ c.toNat < 0x20) :
    unescape (c :: rest) = (unescape rest).map (fun t => CodeUnit.chr c :: t) := by
  rw [unescape.eq_def]
  simp [h5c, h22, hctl]

/-- Step of `unescape` on a one-letter escape. -/
theorem unescape_short (e : Char) (x : Char) (rest : List Char) (hnu : ¬ e.toNat = 0x75)
    (hesc : escapeChar e = some x) :
    unescape (Char.ofNat 0x5C :: e :: rest) = (unescape rest).map (fun t => CodeUnit.chr x :: t) := by
  rw [unescape.eq_def]
  simp [hnu, hesc]

/-- Step of `unescape` on a backslash-u escape. -/
theorem unescape_u (a b c d : Char) (rr : Nat) (rest : List Char) (hg : getu4 a b c d = some rr) :
    unescape (Char.ofNat 0x5C :: Char.ofNat 0x75 :: a :: b :: c :: d :: rest) =
      (unescape rest).map (fun t => CodeUnit.esc rr :: t) := by
  rw [unescape.eq_def]
  simp [hg]

/-- The escapes of rendered text are resolved to the characters rendered. -/
theorem unescape_escapeText (cs : List Char) : unescape (escapeText cs) = some (cs.map unitOf) := by
  induction cs with
  | nil => rfl
  | cons c cs ih =>
    unfold escapeText escapeRune
    by_cases hq : c.toNat = 0x22 ∨ c.toNat = 0x5C
    · have hctl : ¬ c.toNat < 0x20 := by rcases hq with h | h <;> omega
      rw [if_pos hq]
      have hesc : escapeChar c = some c := by
        unfold escapeChar
        rcases hq with h | h <;> simp [h]
      have hnu : ¬ c.toNat = 0x75 := by rcases hq with h | h <;> omega
      simp only [List.cons_append, List.nil_append]
      rw [unescape_short c c _ hnu hesc, ih]
      simp [unitOf, hctl]
    · rw [if_neg hq]
      by_cases hctl : c.toNat < 0x20
      · rw [if_pos hctl]
        have h1 : hexVal (hexDigit (c.toNat / 16)) = some (c.toNat / 16) :=
          hexVal_hexDigit _ (by omega)
        have h2 : hexVal (hexDigit (c.toNat % 16)) = some (c.toNat % 16) :=
          hexVal_hexDigit _ (by omega)
        have h0 : hexVal (Char.ofNat 0x30) = some 0 := rfl
        have hg : getu4 (Char.ofNat 0x30) (Char.ofNat 0x30) (hexDigit (c.toNat / 16))
            (hexDigit (c.toNat % 16)) = some c.toNat := by
          unfold getu4
          rw [h0, h1, h2]
          simp only [Option.some.injEq]
          omega
        simp only [List.cons_append, List.nil_append]
        rw [unescape_u _ _ _ _ _ _ hg, ih]
        simp [unitOf, hctl]
      · rw [if_neg hctl]
        simp only [List.cons_append, List.nil_append]
        have h5c : ¬ c.toNat = 0x5C := fun h => hq (Or.inr h)
        have h22 : ¬ c.toNat = 0x22 := fun h => hq (Or.inl h)
        rw [unescape_plain c _ h5c h22 hctl, ih]
        simp [unitOf, hctl]

/-- Step of `joinSurrogates` on an escape that is not a surrogate. -/
theorem joinSurrogates_esc (rr : Nat) (rest : List CodeUnit) (hs : isSurrogate rr = false) :
    joinSurrogates (CodeUnit.esc rr :: rest) = Char.ofNat rr :: joinSurrogates rest := by
  rw [joinSurrogates.eq_def]
  simp [hs]

/-- Step of `joinSurrogates` on a character. -/
theorem joinSurrogates_chr (c : Char) (rest : List CodeUnit) :
    joinSurrogates (CodeUnit.chr c :: rest) = c :: joinSurrogates rest := by
  rw [joinSurrogates.eq_def]

/-- No surrogate arises from rendered text. -/
theorem joinSurrogates_unitOf (cs : List Char) : joinSurrogates (cs.map unitOf) = cs := by
  induction cs with
  | nil => rfl
  | cons c cs ih =>
    by_cases hctl : c.toNat < 0x20
    · have hs : isSurrogate c.toNat = false := by
        unfold isSurrogate
        simp
        omega
      simp only [List.map_cons, unitOf, if_pos hctl]
      rw [joinSurrogates_esc _ _ hs, ih, Char.ofNat_toNat]
    · simp only [List.map_cons, unitOf, if_neg hctl]
      rw [joinSurrogates_chr, ih]

/-- Go `unquote` gives back the string that was rendered. -/
theorem unquote_escapeText (s : String) : unquote (escapeText s.toList) = some s := by
  unfold unquote
  rw [unescape_escapeText]
  simp [joinSurrogates_unitOf]

/-- A scanner step that emits nothing. -/
theorem lexAll_silent (st st2 : LexState) (c : Char) (cs : List Char)
    (h : lexStep st c = some (st2, [])) : lexAll st (c :: cs) = lexAll st2 cs := by
  rw [lexAll, h]
  show (lexAll st2 cs).map (fun more => [] ++ more) = lexAll st2 cs
  cases lexAll st2 cs <;> rfl

/-- A scanner step that emits one token. -/
theorem lexAll_emit (st st2 : LexState) (c : Char) (cs : List Char) (tok : Token)
    (h : lexStep st c = some (st2, [tok])) :
    lexAll st (c :: cs) = (lexAll st2 cs).map (fun more => tok :: more) := by
  rw [lexAll, h]
  show (lexAll st2 cs).map (fun more => [tok] ++ more) = _
  cases lexAll st2 cs <;> rfl

/-- Inside a string literal the scanner accepts the text of one character. -/
theorem lexAll_escapeRune (c : Char) (raw tail : List Char) :
    lexAll (LexState.inString raw) (escapeRune c ++ tail) =
      lexAll (LexState.inString ((escapeRune c).reverse ++ raw)) tail := by
  unfold escapeRune
  by_cases hq : c.toNat = 0x22 ∨ c.toNat = 0x5C
  · rw [if_pos hq]
    simp only [List.cons_append, List.nil_append, List.reverse_cons, List.reverse_nil,
      List.append_assoc]
    rw [lexAll_silent (LexState.inString raw) (LexState.inStringEsc (Char.ofNat 0x5C :: raw))
        (Char.ofNat 0x5C) _ rfl]
    apply lexAll_silent
    rcases hq with h | h <;> simp [lexStep, h]
  · rw [if_neg hq]
    by_cases hctl : c.toNat < 0x20
    · rw [if_pos hctl]
      have h1 : (hexVal (hexDigit (c.toNat / 16))).isSome = true := by
        rw [hexVal_hexDigit _ (by omega)]; rfl
      have h2 : (hexVal (hexDigit (c.toNat % 16))).isSome = true := by
        rw [hexVal_hexDigit _ (by omega)]; rfl
      simp only [List.cons_append, List.nil_append, List.reverse_cons, List.reverse_nil,
        List.append_assoc]
      rw [lexAll_silent (LexState.inString raw) (LexState.inStringEsc (Char.ofNat 0x5C :: raw))
        (Char.ofNat 0x5C) _ rfl]
      rw [lexAll_silent (LexState.inStringEsc (Char.ofNat 0x5C :: raw))
        (LexState.inStringEscU (Char.ofNat 0x75 :: Char.ofNat 0x5C :: raw) 0) (Char.ofNat 0x75) _ rfl]
      rw [lexAll_silent (LexState.inStringEscU (Char.ofNat 0x75 :: Char.ofNat 0x5C :: raw) 0)
        (LexState.inStringEscU (Char.ofNat 0x30 :: Char.ofNat 0x75 :: Char.ofNat 0x5C :: raw) 1)
        (Char.ofNat 0x30) _ rfl]
      rw [lexAll_silent
        (LexState.inStringEscU (Char.ofNat 0x30 :: Char.ofNat 0x75 :: Char.ofNat 0x5C :: raw) 1)
        (LexState.inStringEscU
          (Char.ofNat 0x30 :: Char.ofNat 0x30 :: Char.ofNat 0x75 :: Char.ofNat 0x5C :: raw) 2)
        (Char.ofNat 0x30) _ rfl]
      rw [lexAll_silent _ (LexState.inStringEscU (hexDigit (c.toNat / 16) ::
        Char.ofNat 0x30 :: Char.ofNat 0x30 :: Char.ofNat 0x75 :: Char.ofNat 0x5C :: raw) 3) _ _
        (by simp [lexStep, h1])]
      apply lexAll_silent
      simp [lexStep, h2]
    · rw [if_neg hctl]
      have h5c : ¬ c.toNat = 0x5C := fun h => hq (Or.inr h)
      have h22 : ¬ c.toNat = 0x22 := fun h => hq (Or.inl h)
      simp only [List.cons_append, List.nil_append, List.reverse_cons, List.reverse_nil]
      apply lexAll_silent
      simp [lexStep, h5c, h22, hctl]

/-- Inside a string literal the scanner accepts the text of any characters. -/
theorem lexAll_escapeText (cs raw tail : List Char) :
    lexAll (LexState.inString raw) (escapeText cs ++ tail) =
      lexAll (LexState.inString ((escapeText cs).reverse ++ raw)) tail := by
  induction cs generalizing raw with
  | nil => rfl
  | cons c cs ih =>
    simp only [escapeText, List.append_assoc, List.reverse_append]
    rw [lexAll_escapeRune, ih]

/-- The scanner reads the text of a string back as one string token. -/
theorem lexAll_quoteString (s : String) (tail : List Char) :
    lexAll LexState.beginToken (quoteString s ++ tail) =
      (lexAll LexState.beginToken tail).map (fun more => Token.str s :: more) := by
  unfold quoteString
  simp only [List.cons_append, List.append_assoc, List.nil_append]
  rw [lexAll_silent LexState.beginToken (LexState.inString []) (Char.ofNat 0x22) _ rfl,
    lexAll_escapeText]
  apply lexAll_emit
  simp [lexStep]
  exact unquote_escapeText s

/-- The scanner reads the text of a member as key, colon, value. -/
theorem lexAll_renderMember (m : String × String) (tail : List Char) :
    lexAll LexState.beginToken (renderMember m ++ tail) =
      (lexAll LexState.beginToken tail).map
        (fun more => Token.str m.1 :: Token.colon :: Token.str m.2 :: more) := by
  unfold renderMember
  simp only [List.append_assoc, List.cons_append]
  rw [lexAll_quoteString,
    lexAll_emit LexState.beginToken LexState.beginToken (Char.ofNat 0x3A) _ Token.colon rfl,
    lexAll_quoteString]
  cases lexAll LexState.beginToken tail <;> rfl

/-- The scanner reads the rest of an object as its tokens. -/
theorem lexAll_renderTail (ms : List (String × String)) :
    lexAll LexState.beginToken (renderTail ms) = some (tailTokens ms) := by
  induction ms with
  | nil => rfl
  | cons m rest ih =>
    unfold renderTail tailTokens
    rw [lexAll_emit LexState.beginToken LexState.beginToken (Char.ofNat 0x2C) _ Token.comma rfl,
      lexAll_renderMember, ih]
    rfl

/-- The grammar collects the remaining members and closes the object. -/
theorem parseTokens_tail (ms : List (String × String)) :
    ∀ (acc : List (String × JSON)) (key : String),
      parseTokens Mode.endValue [Frame.obj acc key] (tailTokens ms) =
        some (JSON.obj (acc.reverse ++ stringMembers ms)) := by
  induction ms with
  | nil =>
    intro acc key
    simp [tailTokens, parseTokens, parseStep, deliver, stringMembers]
  | cons m rest ih =>
    intro acc key
    have h := ih ((m.1, JSON.str m.2) :: acc) m.1
    simp only [tailTokens, parseTokens, parseStep, parseBeginValue, scalarOf, deliver,
      Option.map_some']
    rw [h]
    simp [stringMembers]

/-- The text of an object of string members denotes that object. -/
theorem parseJSON_renderObject (ms : List (String × String)) :
    parseJSON (renderObject ms).toList = some (JSON.obj (stringMembers ms)) := by
  cases ms with
  | nil => rfl
  | cons m rest =>
    unfold parseJSON renderObject
    show (match lexAll LexState.beginToken (Char.ofNat 0x7B :: (renderMember m ++ renderTail rest))
      with
      | none => none
      | some toks => parseTokens Mode.beginValue [] toks) = _
    rw [lexAll_emit LexState.beginToken LexState.beginToken (Char.ofNat 0x7B) _ Token.beginObject
      rfl, lexAll_renderMember, lexAll_renderTail]
    have h := parseTokens_tail rest [(m.1, JSON.str m.2)] m.1
    simp only [Option.map_some', parseTokens, parseStep, parseBeginValue, scalarOf, deliver]
    simp only [maxNestingDepth, List.length_nil]
    simp only [Nat.zero_add, Nat.one_le_ofNat, if_true]
    rw [h]
    simp [stringMembers]

/-! ### The callback -/

/-- The error returned by `handleVideoFile` is nil exactly when the file name is not
`"error"`. -/
theorem handleVideoFile_nil_iff (b n : String) : (handleVideoFile b n).2 = none ↔ n ≠ "error" := by
  unfold handleVideoFile
  by_cases h : n = "error" <;> simp [h]

/-- The effects of the callback when decoding fails. -/
theorem callback_of_error (msg : Message) (err : UnmarshalError)
    (h : jsonUnmarshal msg.Data = Except.error err) :
    callback msg = [Effect.logRawData msg.Data, Effect.logUnmarshalFailed err, Effect.nack] := by
  simp [callback, h]

/-- The effects of the callback when decoding succeeds and the name is not `"error"`. -/
theorem callback_of_success (msg : Message) (event : StorageEvent)
    (hdecode : jsonUnmarshal msg.Data = Except.ok event) (hname : event.Name ≠ "error") :
    callback msg = [Effect.logRawData msg.Data,
      Effect.logReceivedEvent event.Bucket event.Name event.Size,
      Effect.printProcessing event.Bucket event.Name, Effect.ack, Effect.sleep 10] := by
  simp [callback, hdecode, handleVideoFile, hname]

/-- The effects of the callback when decoding succeeds and the name is `"error"`. -/
theorem callback_of_failure (msg : Message) (event : StorageEvent)
    (hdecode : jsonUnmarshal msg.Data = Except.ok event) (hname : event.Name = "error") :
    callback msg = [Effect.logRawData msg.Data,
      Effect.logReceivedEvent event.Bucket event.Name event.Size,
      Effect.printProcessing event.Bucket event.Name,
      Effect.logProcessingError "simulated processing error", Effect.nack] := by
  simp [callback, hdecode, handleVideoFile, hname]

/-! ## The claims -/

/-- C1: a message whose payload decodes and for which `handleVideoFile` returns nil is
acked exactly once by the callback and never nacked. -/
theorem callback_success_acks_once (msg : Message) (event : StorageEvent)
    (hdecode : jsonUnmarshal msg.Data = Except.ok event)
    (hnil : (handleVideoFile event.Bucket event.Name).2 = none) :
    acks (callback msg) = 1 ∧ nacks (callback msg) = 0 := by
  rw [callback_of_success msg event hdecode ((handleVideoFile_nil_iff _ _).mp hnil)]
  exact ⟨by simp [acks], by simp [nacks]⟩

/-- C1 at the payload `{"bucket":"uploads","name":"movie.mov","size":"7"}`. -/
theorem callback_success_acks_once_witness :
    jsonUnmarshal moviePayload = Except.ok ⟨"uploads", "movie.mov", "7"⟩ ∧
    (handleVideoFile "uploads" "movie.mov").2 = none ∧
    acks (callback ⟨moviePayload, none⟩) = 1 ∧ nacks (callback ⟨moviePayload, none⟩) = 0 :=
  ⟨rfl, rfl, callback_success_acks_once ⟨moviePayload, none⟩ ⟨"uploads", "movie.mov", "7"⟩ rfl rfl⟩

/-- C2: a message whose payload decodes and for which `handleVideoFile` returns an
error is nacked exactly once by the callback and never acked; in particular the
payload `{"bucket":"b1","name":"error","size":"5"}` decodes, its handler call fails,
and it is nacked once and not acked, whatever its delivery attempt. -/
theorem callback_failure_nacks_once (msg : Message) (event : StorageEvent)
    (hdecode : jsonUnmarshal msg.Data = Except.ok event)
    (herr : (handleVideoFile event.Bucket event.Name).2 ≠ none) :
    (nacks (callback msg) = 1 ∧ acks (callback msg) = 0) ∧
    (jsonUnmarshal errorPayload = Except.ok ⟨"b1", "error", "5"⟩ ∧
      (handleVideoFile "b1" "error").2 ≠ none ∧
      ∀ attempt, nacks (callback ⟨errorPayload, attempt⟩) = 1 ∧
        acks (callback ⟨errorPayload, attempt⟩) = 0) := by
  have key : ∀ (m : Message) (ev : StorageEvent), jsonUnmarshal m.Data = Except.ok ev →
      ev.Name = "error" → nacks (callback m) = 1 ∧ acks (callback m) = 0 := by
    intro m ev hd hn
    rw [callback_of_failure m ev hd hn]
    exact ⟨by simp [nacks], by simp [acks]⟩
  have hname : event.Name = "error" := by
    by_contra hne
    exact herr ((handleVideoFile_nil_iff _ _).mpr hne)
  refine ⟨key msg event hdecode hname, rfl, by decide, ?_⟩
  intro attempt
  exact key ⟨errorPayload, attempt⟩ ⟨"b1", "error", "5"⟩ rfl rfl

/-- C2 at the payload `{"bucket":"b1","name":"error","size":"5"}`, first delivery. -/
theorem callback_failure_nacks_once_witness :
    jsonUnmarshal errorPayload = Except.ok ⟨"b1", "error", "5"⟩ ∧
    (handleVideoFile "b1" "error").2 ≠ none ∧
    nacks (callback ⟨errorPayload, some 1⟩) = 1 ∧ acks (callback ⟨errorPayload, some 1⟩) = 0 :=
  ⟨rfl, by decide,
    (callback_failure_nacks_once ⟨errorPayload, some 1⟩ ⟨"b1", "error", "5"⟩ rfl (by decide)).1⟩

/-- C3: a message whose payload is malformed (`json.Unmarshal` returns an error) is
nacked exactly once by the callback, never acked, and `handleVideoFile` is not
called; the payload `not-json` is such a payload. -/
theorem callback_malformed_nacks (msg : Message) (err : UnmarshalError)
    (hdecode : jsonUnmarshal msg.Data = Except.error err) :
    (nacks (callback msg) = 1 ∧ acks (callback msg) = 0 ∧ handlerCalls (callback msg) = []) ∧
    jsonUnmarshal "not-json" = Except.error UnmarshalError.malformed := by
  rw [callback_of_error msg err hdecode]
  exact ⟨⟨by simp [nacks], by simp [acks], by simp [handlerCalls]⟩, rfl⟩

/-- C3 at the payload `not-json`. -/
theorem callback_malformed_nacks_witness :
    jsonUnmarshal "not-json" = Except.error UnmarshalError.malformed ∧
    nacks (callback ⟨"not-json", none⟩) = 1 ∧ acks (callback ⟨"not-json", none⟩) = 0 ∧
    handlerCalls (callback ⟨"not-json", none⟩) = [] :=
  ⟨rfl, (callback_malformed_nacks ⟨"not-json", none⟩ UnmarshalError.malformed rfl).1⟩

/-- C5, evaluated on the code: the file name `error.mp4` contains the substring
`error`, yet `handleVideoFile` returns nil for it, because the code compares the
whole name with `"error"`. -/
theorem handleVideoFile_substring_returns_nil :
    "error".toList <:+: "error.mp4".toList ∧ (handleVideoFile "b1" "error.mp4").2 = none :=
  ⟨⟨[], ".mp4".toList, rfl⟩, rfl⟩

/-- C6: `handleVideoFile` returns a non-nil error if and only if the file name is
`"error"`, and returns nil otherwise; the returned error does not depend on the
bucket name. -/
theorem handleVideoFile_error_iff (bucketName fileName : String) :
    ((handleVideoFile bucketName fileName).2 ≠ none ↔ fileName = "error") ∧
    ((handleVideoFile bucketName fileName).2 = none ↔ fileName ≠ "error") ∧
    ∀ otherBucket, (handleVideoFile otherBucket fileName).2 = (handleVideoFile bucketName fileName).2 := by
  refine ⟨?_, handleVideoFile_nil_iff _ _, fun _ => rfl⟩
  rw [Ne, handleVideoFile_nil_iff]
  exact not_not

/-- Decoding a payload that is a JSON object: its members are stored in order. -/
theorem jsonUnmarshal_of_object (data : String) (ms : List (String × JSON))
    (hobj : parseJSON data.toList = some (JSON.obj ms)) :
    jsonUnmarshal data =
      match ms.foldl storeMember (StorageEvent.zero, none) with
      | (ev, none) => Except.ok ev
      | (_, some e) => Except.error e := by
  unfold jsonUnmarshal
  rw [hobj]
  rfl

/-- C4, counterexample: the payload `{"size":"5"}` has no bucket and no name, yet it
decodes (both fields are left empty), `handleVideoFile("", "")` is called, and the
message is acked, not nacked.  Likewise `{"bucket":null,"name":"clip.mp4"}`, whose
bucket is not a string, decodes with an empty bucket and its handler is called. -/
theorem absent_fields_decode :
    (parseJSON sizeOnlyPayload.toList = some (JSON.obj [("size", JSON.str "5")]) ∧
      jsonUnmarshal sizeOnlyPayload = Except.ok ⟨"", "", "5"⟩ ∧
      handlerCalls (callback ⟨sizeOnlyPayload, none⟩) = [("", "")] ∧
      nacks (callback ⟨sizeOnlyPayload, none⟩) = 0 ∧
      acks (callback ⟨sizeOnlyPayload, none⟩) = 1) ∧
    (parseJSON nullBucketPayload.toList =
        some (JSON.obj [("bucket", JSON.null), ("name", JSON.str "clip.mp4")]) ∧
      jsonUnmarshal nullBucketPayload = Except.ok ⟨"", "clip.mp4", ""⟩ ∧
      handlerCalls (callback ⟨nullBucketPayload, none⟩) = [("", "clip.mp4")] ∧
      nacks (callback ⟨nullBucketPayload, none⟩) = 0 ∧
      acks (callback ⟨nullBucketPayload, none⟩) = 1) :=
  ⟨⟨rfl, rfl, rfl, rfl, rfl⟩, ⟨rfl, rfl, rfl, rfl, rfl⟩⟩

/-- C4, amended: for a payload that is a JSON object, (1) if some member naming
bucket or name carries a value that is neither a string nor null, decoding fails,
the callback nacks the message once, does not ack it and does not call
`handleVideoFile`; (2) if every member naming a field carries a string or null,
decoding succeeds whether or not bucket and name are present, a field that is absent
or null is left as the empty string, and `handleVideoFile` is called once with the
decoded bucket and name. -/
theorem decode_fails_on_wrong_type (msg : Message) (ms : List (String × JSON))
    (hobj : parseJSON msg.Data.toList = some (JSON.obj ms)) :
    ((∃ m ∈ ms, (fieldFor m.1 = some Field.bucket ∨ fieldFor m.1 = some Field.name) ∧
        m.2.isStringOrNull = false) →
      ∃ err, jsonUnmarshal msg.Data = Except.error err ∧
        nacks (callback msg) = 1 ∧ acks (callback msg) = 0 ∧ handlerCalls (callback msg) = []) ∧
    ((∀ m ∈ ms, ∀ f, fieldFor m.1 = some f → m.2.isStringOrNull = true) →
      ∃ event, jsonUnmarshal msg.Data = Except.ok event ∧
        (∀ f, (∀ m ∈ ms, fieldFor m.1 = some f → m.2 = JSON.null) → f.get event = "") ∧
        handlerCalls (callback msg) = [(event.Bucket, event.Name)]) := by
  have hun := jsonUnmarshal_of_object msg.Data ms hobj
  constructor
  · rintro ⟨m, hm, hf, hv⟩
    have hbad : ∃ m ∈ ms, ∃ f, fieldFor m.1 = some f ∧ m.2.isStringOrNull = false := by
      rcases hf with hf | hf
      · exact ⟨m, hm, _, hf, hv⟩
      · exact ⟨m, hm, _, hf, hv⟩
    obtain ⟨e, he⟩ := foldl_bad ms (StorageEvent.zero, none) hbad
    have hdec : jsonUnmarshal msg.Data = Except.error e := by
      rw [hun]
      generalize ms.foldl storeMember (StorageEvent.zero, none) = r at he
      obtain ⟨ev, saved⟩ := r
      simp only at he
      subst he
      rfl
    refine ⟨e, hdec, ?_⟩
    rw [callback_of_error msg e hdec]
    exact ⟨by simp [nacks], by simp [acks], by simp [handlerCalls]⟩
  · intro hgood
    have hnone := foldl_good ms (StorageEvent.zero, none) hgood
    have hdec : jsonUnmarshal msg.Data =
        Except.ok (ms.foldl storeMember (StorageEvent.zero, none)).1 := by
      rw [hun]
      generalize ms.foldl storeMember (StorageEvent.zero, none) = r at hnone
      obtain ⟨ev, saved⟩ := r
      simp only at hnone
      subst hnone
      rfl
    refine ⟨_, hdec, ?_, ?_⟩
    · intro f hnull
      rw [foldl_get_null ms f _ hnull]
      cases f <;> rfl
    · by_cases hname : (ms.foldl storeMember (StorageEvent.zero, none)).1.Name = "error"
      · rw [callback_of_failure msg _ hdec hname]
        simp [handlerCalls]
      · rw [callback_of_success msg _ hdec hname]
        simp [handlerCalls]

/-- C4, amended, at the payload `{"bucket":5,"name":"clip.mp4"}`. -/
theorem decode_fails_on_wrong_type_witness :
    parseJSON numberBucketPayload.toList =
      some (JSON.obj [("bucket", JSON.num "5"), ("name", JSON.str "clip.mp4")]) ∧
    ∃ err, jsonUnmarshal numberBucketPayload = Except.error err ∧
      nacks (callback ⟨numberBucketPayload, none⟩) = 1 ∧
      acks (callback ⟨numberBucketPayload, none⟩) = 0 ∧
      handlerCalls (callback ⟨numberBucketPayload, none⟩) = [] :=
  ⟨rfl, (decode_fails_on_wrong_type ⟨numberBucketPayload, none⟩
    [("bucket", JSON.num "5"), ("name", JSON.str "clip.mp4")] rfl).1
    ⟨("bucket", JSON.num "5"), by simp, Or.inl rfl, rfl⟩⟩

/-- C7, counterexample: the payload
`{"bucket":"b1","name":"clip.mp4","size":"120","NAME":"error"}` is a JSON object with
the string-valued fields bucket=b1, name=clip.mp4, size=120, and clip.mp4 is not
`"error"`; yet the key `NAME` selects the field `Name` too and the later member
wins, so it decodes to `{b1, error, 120}`, the handler fails, and the message is
nacked once and not acked. -/
theorem uppercase_name_overrides :
    parseJSON overridePayload.toList = some (JSON.obj [("bucket", JSON.str "b1"),
      ("name", JSON.str "clip.mp4"), ("size", JSON.str "120"), ("NAME", JSON.str "error")]) ∧
    "clip.mp4" ≠ "error" ∧
    jsonUnmarshal overridePayload = Except.ok ⟨"b1", "error", "120"⟩ ∧
    handlerCalls (callback ⟨overridePayload, none⟩) = [("b1", "error")] ∧
    acks (callback ⟨overridePayload, none⟩) = 0 ∧ nacks (callback ⟨overridePayload, none⟩) = 1 :=
  ⟨rfl, by decide, rfl, rfl, rfl, rfl⟩

/-- C7, amended: take any JSON object of string-valued members, written out as text
(`renderObject`), in which for each of bucket, name, size some member names the field
and every member naming it (exactly or up to letter case) carries b, n, s, with n
other than `"error"`.  That payload decodes to `StorageEvent{b, n, s}`; the callback
calls `handleVideoFile(b, n)` and then acks the message exactly once, without a
nack.  In particular `{"bucket":"b1","name":"clip.mp4","size":"120"}` is such a text,
decodes to `{b1, clip.mp4, 120}` and is acked once. -/
theorem callback_valid_event_acked (ms : List (String × String)) (b n s : String)
    (attempt : Option Nat)
    (hb : HasStringField ms Field.bucket b) (hn : HasStringField ms Field.name n)
    (hs : HasStringField ms Field.size s) (hne : n ≠ "error") :
    (jsonUnmarshal (renderObject ms) = Except.ok ⟨b, n, s⟩ ∧
      callback ⟨renderObject ms, attempt⟩ = [Effect.logRawData (renderObject ms),
        Effect.logReceivedEvent b n s, Effect.printProcessing b n, Effect.ack,
        Effect.sleep 10] ∧
      handlerCalls (callback ⟨renderObject ms, attempt⟩) = [(b, n)] ∧
      acks (callback ⟨renderObject ms, attempt⟩) = 1 ∧
      nacks (callback ⟨renderObject ms, attempt⟩) = 0) ∧
    (renderObject [("bucket", "b1"), ("name", "clip.mp4"), ("size", "120")] = clipPayload ∧
      jsonUnmarshal clipPayload = Except.ok ⟨"b1", "clip.mp4", "120"⟩ ∧
      ∀ other, acks (callback ⟨clipPayload, other⟩) = 1 ∧
        nacks (callback ⟨clipPayload, other⟩) = 0) := by
  have key : ∀ (m : Message) (ev : StorageEvent), jsonUnmarshal m.Data = Except.ok ev →
      ev.Name ≠ "error" →
      callback m = [Effect.logRawData m.Data, Effect.logReceivedEvent ev.Bucket ev.Name ev.Size,
        Effect.printProcessing ev.Bucket ev.Name, Effect.ack, Effect.sleep 10] ∧
      handlerCalls (callback m) = [(ev.Bucket, ev.Name)] ∧
      acks (callback m) = 1 ∧ nacks (callback m) = 0 := by
    intro m ev hd hname
    rw [callback_of_success m ev hd hname]
    exact ⟨rfl, by simp [handlerCalls], by simp [acks], by simp [nacks]⟩
  have hgood : ∀ m ∈ stringMembers ms, ∀ f, fieldFor m.1 = some f →
      m.2.isStringOrNull = true := by
    intro m hm f _
    obtain ⟨y, _, rfl⟩ := List.mem_map.mp hm
    rfl
  have hnone := foldl_good (stringMembers ms) (StorageEvent.zero, none) hgood
  have hB := foldl_hasStringField ms Field.bucket b (StorageEvent.zero, none) hb
  have hN := foldl_hasStringField ms Field.name n (StorageEvent.zero, none) hn
  have hS := foldl_hasStringField ms Field.size s (StorageEvent.zero, none) hs
  have hdec : jsonUnmarshal (renderObject ms) = Except.ok ⟨b, n, s⟩ := by
    rw [jsonUnmarshal_of_object (renderObject ms) (stringMembers ms) (parseJSON_renderObject ms)]
    generalize (stringMembers ms).foldl storeMember (StorageEvent.zero, none) = r
      at hnone hB hN hS
    obtain ⟨⟨eb, en, es⟩, saved⟩ := r
    simp only [Field.get] at hnone hB hN hS
    subst hnone hB hN hS
    rfl
  refine ⟨⟨hdec, key ⟨renderObject ms, attempt⟩ ⟨b, n, s⟩ hdec hne⟩, by decide, rfl, ?_⟩
  intro other
  exact (key ⟨clipPayload, other⟩ ⟨"b1", "clip.mp4", "120"⟩ rfl (by decide)).2.2

/-- C7, amended, at the members bucket=b1, name=clip.mp4, size=120, whose text is the
payload `{"bucket":"b1","name":"clip.mp4","size":"120"}`. -/
theorem callback_valid_event_acked_witness :
    renderObject [("bucket", "b1"), ("name", "clip.mp4"), ("size", "120")] = clipPayload ∧
    jsonUnmarshal (renderObject [("bucket", "b1"), ("name", "clip.mp4"), ("size", "120")]) =
      Except.ok ⟨"b1", "clip.mp4", "120"⟩ ∧
    acks (callback ⟨renderObject [("bucket", "b1"), ("name", "clip.mp4"), ("size", "120")],
      none⟩) = 1 ∧
    nacks (callback ⟨renderObject [("bucket", "b1"), ("name", "clip.mp4"), ("size", "120")],
      none⟩) = 0 := by
  have h := (callback_valid_event_acked
    [("bucket", "b1"), ("name", "clip.mp4"), ("size", "120")] "b1" "clip.mp4" "120" none
    ⟨⟨("bucket", "b1"), by simp, rfl⟩, by
      intro m hm hf
      simp only [List.mem_cons, List.mem_singleton, List.not_mem_nil, or_false] at hm
      rcases hm with rfl | rfl | rfl
      · rfl
      · exact absurd hf (by decide)
      · exact absurd hf (by decide)⟩
    ⟨⟨("name", "clip.mp4"), by simp, rfl⟩, by
      intro m hm hf
      simp only [List.mem_cons, List.mem_singleton, List.not_mem_nil, or_false] at hm
      rcases hm with rfl | rfl | rfl
      · exact absurd hf (by decide)
      · rfl
      · exact absurd hf (by decide)⟩
    ⟨⟨("size", "120"), by simp, rfl⟩, by
      intro m hm hf
      simp only [List.mem_cons, List.mem_singleton, List.not_mem_nil, or_false] at hm
      rcases hm with rfl | rfl | rfl
      · exact absurd hf (by decide)
      · exact absurd hf (by decide)
      · rfl⟩
    (by decide)).1
  exact ⟨by decide, h.1, h.2.2.2⟩

/-- C8, counterexample: the payload `{"bucket":"b1","name":"clip.mp4","size":"120"}`
decodes and its handler call returns nil, and the callback's effects for it end with
the `Ack` followed by a 10-second sleep, so a sleep does occur on the success path. -/
theorem success_path_sleeps :
    jsonUnmarshal clipPayload = Except.ok ⟨"b1", "clip.mp4", "120"⟩ ∧
    (handleVideoFile "b1" "clip.mp4").2 = none ∧
    callback ⟨clipPayload, none⟩ = [Effect.logRawData clipPayload,
      Effect.logReceivedEvent "b1" "clip.mp4" "120", Effect.printProcessing "b1" "clip.mp4",
      Effect.ack, Effect.sleep 10] ∧
    ¬ sleeps (callback ⟨clipPayload, none⟩) = [] :=
  ⟨rfl, rfl, rfl, by decide⟩

/-- C8, amended: for a message whose payload decodes and for which `handleVideoFile`
returns nil, the callback's effects end with the `Ack` followed by one sleep of 10
seconds; before the `Ack` there is no sleep (and no other `Ack`), so the callback
sleeps exactly once, for 10 seconds, right after acking. -/
theorem callback_success_sleeps_after_ack (msg : Message) (event : StorageEvent)
    (hdecode : jsonUnmarshal msg.Data = Except.ok event)
    (hnil : (handleVideoFile event.Bucket event.Name).2 = none) :
    (∃ before, callback msg = before ++ [Effect.ack, Effect.sleep 10] ∧
      sleeps before = [] ∧ acks before = 0) ∧
    sleeps (callback msg) = [10] := by
  rw [callback_of_success msg event hdecode ((handleVideoFile_nil_iff _ _).mp hnil)]
  refine ⟨⟨[Effect.logRawData msg.Data,
    Effect.logReceivedEvent event.Bucket event.Name event.Size,
    Effect.printProcessing event.Bucket event.Name], rfl, rfl, by simp [acks]⟩, rfl⟩

/-- C8, amended, at the payload `{"bucket":"uploads","name":"movie.mov","size":"7"}`. -/
theorem callback_success_sleeps_after_ack_witness :
    jsonUnmarshal moviePayload = Except.ok ⟨"uploads", "movie.mov", "7"⟩ ∧
    (handleVideoFile "uploads" "movie.mov").2 = none ∧
    sleeps (callback ⟨moviePayload, some 2⟩) = [10] :=
  ⟨rfl, rfl, (callback_success_sleeps_after_ack ⟨moviePayload, some 2⟩
    ⟨"uploads", "movie.mov", "7"⟩ rfl rfl).2⟩

/-- C9, counterexample: a message on its 6th delivery attempt (6 ≥ 5) with payload
`{"bucket":"b1","name":"error","size":"5"}`, whose processing fails, is nacked once
and not acked. -/
theorem sixth_attempt_is_nacked :
    5 ≤ 6 ∧
    jsonUnmarshal errorPayload = Except.ok ⟨"b1", "error", "5"⟩ ∧
    (handleVideoFile "b1" "error").2 = some "simulated processing error" ∧
    acks (callback ⟨errorPayload, some 6⟩) = 0 ∧ nacks (callback ⟨errorPayload, some 6⟩) = 1 :=
  ⟨by decide, rfl, rfl, rfl, rfl⟩

/-- C9, amended: for a message whose processing fails (its payload does not decode, or
`handleVideoFile` returns an error), whatever its delivery attempt count, the
callback nacks the message exactly once and never acks it; the callback's effects
do not depend on the delivery attempt count at all. -/
theorem callback_failure_ignores_attempts (data : String) (attempt : Option Nat)
    (hfail : (∃ err, jsonUnmarshal data = Except.error err) ∨
      (∃ event, jsonUnmarshal data = Except.ok event ∧
        (handleVideoFile event.Bucket event.Name).2 ≠ none)) :
    nacks (callback ⟨data, attempt⟩) = 1 ∧ acks (callback ⟨data, attempt⟩) = 0 ∧
    ∀ other, callback ⟨data, other⟩ = callback ⟨data, attempt⟩ := by
  refine ⟨?_, ?_, fun _ => rfl⟩
  · rcases hfail with ⟨err, herr⟩ | ⟨event, hdec, hne⟩
    · rw [callback_of_error ⟨data, attempt⟩ err herr]
      simp [nacks]
    · have hname : event.Name = "error" := by
        by_contra h
        exact hne ((handleVideoFile_nil_iff _ _).mpr h)
      rw [callback_of_failure ⟨data, attempt⟩ event hdec hname]
      simp [nacks]
  · rcases hfail with ⟨err, herr⟩ | ⟨event, hdec, hne⟩
    · rw [callback_of_error ⟨data, attempt⟩ err herr]
      simp [acks]
    · have hname : event.Name = "error" := by
        by_contra h
        exact hne ((handleVideoFile_nil_iff _ _).mpr h)
      rw [callback_of_failure ⟨data, attempt⟩ event hdec hname]
      simp [acks]

/-- C9, amended, at the payload `{"bucket":"b1","name":"error","size":"5"}` on its 7th
delivery attempt. -/
theorem callback_failure_ignores_attempts_witness :
    nacks (callback ⟨errorPayload, some 7⟩) = 1 ∧ acks (callback ⟨errorPayload, some 7⟩) = 0 ∧
    ∀ other, callback ⟨errorPayload, other⟩ = callback ⟨errorPayload, some 7⟩ :=
  callback_failure_ignores_attempts errorPayload (some 7)
    (Or.inr ⟨⟨"b1", "error", "5"⟩, rfl, by decide⟩)

/-- C10: once `.env` is loaded, `main` stops at the configuration check, with the
fatal error about missing environment variables, if and only if at least one of
GCP_PROJECT_ID, PUBSUB_SUBSCRIPTION_ID, GOOGLE_APPLICATION_CREDENTIALS is read as the
empty string.  When it stops there it has had no effect: no Pub/Sub client was
created and no message was received, acked or nacked.  When it does not, it goes on
to create the client. -/
theorem main_config_check (w : World) (hload : w.dotenvErr = none) :
    ((main w).2 = Exit.fatal Fatal.missingEnv ↔
      (w.projectID = "" ∨ w.subscriptionID = "" ∨ w.credentialsFile = "")) ∧
    ((main w).2 = Exit.fatal Fatal.missingEnv →
      (main w).1 = [] ∧ (∀ p, Effect.newClient p ∉ (main w).1) ∧
      (∀ m, Effect.receive m ∉ (main w).1) ∧ acks (main w).1 = 0 ∧ nacks (main w).1 = 0) ∧
    (¬ (w.projectID = "" ∨ w.subscriptionID = "" ∨ w.credentialsFile = "") →
      Effect.newClient w.projectID ∈ (main w).1) := by
  have hiff : (main w).2 = Exit.fatal Fatal.missingEnv ↔
      (w.projectID = "" ∨ w.subscriptionID = "" ∨ w.credentialsFile = "") := by
    unfold main
    rw [hload]
    by_cases hmiss : w.projectID = "" ∨ w.subscriptionID = "" ∨ w.credentialsFile = ""
    · simp [hmiss]
    · simp only [hmiss, if_false, iff_false]
      cases w.newClientErr with
      | some err => simp
      | none => cases w.receiveErr <;> simp
  refine ⟨hiff, ?_, ?_⟩
  · intro hexit
    have hmiss := hiff.mp hexit
    have htrace : (main w).1 = [] := by
      unfold main
      rw [hload]
      simp [hmiss]
    rw [htrace]
    exact ⟨rfl, by simp, by simp, rfl, rfl⟩
  · intro hset
    unfold main
    rw [hload]
    simp only [hset, if_false]
    cases w.newClientErr with
    | some err => simp
    | none => cases w.receiveErr <;> simp

/-- C10 in a world where GCP_PROJECT_ID is empty and a message is waiting. -/
theorem main_config_check_witness :
    (main ⟨none, "", "videos-sub", "key.json", none, [⟨clipPayload, none⟩], none⟩).2 =
      Exit.fatal Fatal.missingEnv ∧
    (main ⟨none, "", "videos-sub", "key.json", none, [⟨clipPayload, none⟩], none⟩).1 = [] :=
  ⟨((main_config_check ⟨none, "", "videos-sub", "key.json", none, [⟨clipPayload, none⟩], none⟩
      rfl).1).mpr (Or.inl rfl),
    ((main_config_check ⟨none, "", "videos-sub", "key.json", none, [⟨clipPayload, none⟩], none⟩
      rfl).2.1 rfl).1⟩

end VidTranscoder
